import Mathlib


/-!
Shallow embedding of the demo bank back-office (`main.py`, with
`bank_controller.py` a duplicate of the same logic): decimal quantization,
the account store, the append-only transaction ledger, the alert engine,
the payment worker, the balance simulator, the FX feed and the transaction
query.  `Decimal` values are embedded as `ℚ`; wall-clock timestamps as `ℚ`
seconds; the random draws of the background workers are explicit parameters
of the corresponding step functions (the random distributions themselves
are non-normative).
-/

/-! ## Decimal quantization (`decimal.Decimal.quantize`)

Python's `quantize(Decimal("0.01"), rounding=ROUND_HALF_UP)` rounds to the
nearest multiple of `0.01`, ties away from zero.  A bare
`quantize(Decimal("0.01"))` — as used inside `balance_simulator` and
`fx_rate_updater` — uses the default context rounding `ROUND_HALF_EVEN`:
nearest multiple, ties to the even last digit. -/

/-- Round a rational to an integer, nearest, ties away from zero
(Python `ROUND_HALF_UP`). -/
def halfUpInt (x : ℚ) : ℤ :=
  if 0 ≤ x then ⌊x + 1/2⌋ else -⌊-x + 1/2⌋

/-- Round a rational to an integer, nearest, ties to even
(Python `ROUND_HALF_EVEN`, the default context rounding). -/
def halfEvenInt (x : ℚ) : ℤ :=
  if x - ⌊x⌋ < 1/2 then ⌊x⌋
  else if 1/2 < x - ⌊x⌋ then ⌊x⌋ + 1
  else if ⌊x⌋ % 2 = 0 then ⌊x⌋ else ⌊x⌋ + 1

/-- Python `d.quantize(Decimal("0.01"), rounding=ROUND_HALF_UP)` — the numeric
value of `quantize_amount` (the Python helper returns `str` of it; the
string rendering is `fmtCents`). -/
def quantize_amount (d : ℚ) : ℚ := (halfUpInt (d * 100) : ℚ) / 100

/-- Python `x.quantize(Decimal("0.01"))` with the default `ROUND_HALF_EVEN`,
as used by the `balance_simulator` lines
`change = Decimal(...).quantize(Decimal("0.01"))` and
`acct["balance"] = (acct["balance"] + change).quantize(Decimal("0.01"))`. -/
def quantize2HE (q : ℚ) : ℚ := (halfEvenInt (q * 100) : ℚ) / 100

/-- Python `x.quantize(Decimal("0.0001"))` with the default `ROUND_HALF_EVEN`,
as used by `fx_rate_updater`. -/
def quantize4HE (q : ℚ) : ℚ := (halfEvenInt (q * 10000) : ℚ) / 10000

/-- Modelled from the spec: the quantization rule the spec states for FX
rates — round-half-up to 4 decimal places.  Kept for comparison with the
code's `quantize4HE`. -/
def quantize4HUspec (q : ℚ) : ℚ := (halfUpInt (q * 10000) : ℤ) / (10000 : ℚ)

/-- One FX-feed update for a single currency pair: the body of
`fx_rate_updater` with `current` the pair's rate and `u` the drawn
`change_pct`:
`new_rate = (current * (Decimal("1") + change_pct)).quantize(Decimal("0.0001"))`. -/
def fxTick (current u : ℚ) : ℚ := quantize4HE (current * (1 + u))

/-- Exact cent values: the rationals representable as `Decimal` with two
decimal places.  Every balance and transaction amount held by the system is
of this form. -/
def IsCent (q : ℚ) : Prop := ∃ m : ℤ, q = (m : ℚ) / 100

/-! ## Data model

`Decimal` fields are `ℚ`; ISO timestamps are `ℚ` seconds of wall-clock
time.  Identifier strings (`TXN%08d`, `PAY%08d`, `ALT%08d`) are built by
`padId`. -/

/-- Zero-padded id rendering, Python percent-08d style: the decimal digits
of `n` left-padded with zeros to width 8, after the tag. -/
def padId (tag : String) (n : ℕ) : String :=
  let s := toString n
  tag ++ String.mk (List.replicate (8 - s.length) '0') ++ s

inductive TxnType where
  | debit
  | credit
deriving DecidableEq

inductive PaymentStatus where
  | pending
  | processing
  | completed
  | failed
deriving DecidableEq

inductive Severity where
  | low
  | medium
  | high
deriving DecidableEq

/-- One entry of the `ACCOUNTS` dict.  `last_updated` is absent (`none`)
until the first `balance_simulator` mutation. -/
structure Account where
  account_id : String
  account_name : String
  currency : String
  balance : ℚ
  last_updated : Option ℚ
deriving DecidableEq

/-- A record of the append-only `transactions.jsonl` ledger. -/
structure Txn where
  transaction_id : String
  account_id : String
  timestamp : ℚ
  amount : ℚ
  type : TxnType
  description : String
  balance_after : ℚ
  currency : String
deriving DecidableEq

/-- An entry of `PENDING_PAYMENTS`. -/
structure Payment where
  payment_id : String
  from_account : String
  to_reference : String
  amount : ℚ
  currency : String
  status : PaymentStatus
  created_at : ℚ
  processed_at : Option ℚ
  description : String
deriving DecidableEq

/-- An entry of `ALERTS`. -/
structure Alert where
  alert_id : String
  account_id : String
  severity : Severity
  message : String
  timestamp : ℚ
  acknowledged : Bool
deriving DecidableEq

/-- The process-wide mutable state: `ACCOUNTS`, `PENDING_PAYMENTS`, the
persisted transaction log, `ALERTS`, and the three id counters.  The
`ACCOUNTS` dict is a partial map from account id. -/
structure BankState where
  accounts : String → Option Account
  payments : List Payment
  ledger : List Txn
  alerts : List Alert
  txnCounter : ℕ
  paymentCounter : ℕ
  alertCounter : ℕ

/-- Python `str(Decimal)` for a two-decimal-place value: sign, integer
digits, point, two fractional digits (e.g. `"-5000.00"`). -/
def fmtCents (q : ℚ) : String :=
  let m := halfUpInt (q * 100)
  (if m < 0 then "-" else "")
    ++ toString (m.natAbs / 100) ++ "."
    ++ (if m.natAbs % 100 < 10 then "0" else "") ++ toString (m.natAbs % 100)

/-- The initial `ACCOUNTS` dict of `main.py`. -/
def initAccounts : String → Option Account := fun k =>
  if k = "op_aud" then
    some ⟨"op_aud", "Operating Account", "AUD", 1653245/100, none⟩
  else if k = "sav_aud" then
    some ⟨"sav_aud", "Savings Account", "AUD", 12043210/100, none⟩
  else if k = "exp_usd" then
    some ⟨"exp_usd", "Export Reserve", "USD", 875067/100, none⟩
  else none

/-- Fresh process state: the three seeded accounts, no payments, an empty
transaction log, no alerts, all counters zero. -/
def initState : BankState :=
  { accounts := initAccounts
    payments := []
    ledger := []
    alerts := []
    txnCounter := 0
    paymentCounter := 0
    alertCounter := 0 }

/-- Replace the entry of one account id in the `ACCOUNTS` dict. -/
def setAccount (s : BankState) (k : String) (a : Account) : BankState :=
  { s with accounts := fun j => if j = k then some a else s.accounts j }

/-- Python `record_transaction(account_id, amount, txn_type, description)`:
assigns the next `TXN` id, stores the quantized unsigned magnitude and a
snapshot of the account's current balance, and appends the record to the
log.  The Python version raises `KeyError` on an unknown account; every
caller guards existence, so the unknown-account case leaves the state
unchanged here. -/
def record_transaction (s : BankState) (account_id : String) (amount : ℚ)
    (txn_type : TxnType) (description : String) (now : ℚ) : BankState :=
  match s.accounts account_id with
  | none => s
  | some acct =>
    let n := s.txnCounter + 1
    let txn : Txn :=
      { transaction_id := padId "TXN" n
        account_id := account_id
        timestamp := now
        amount := quantize_amount |amount|
        type := txn_type
        description := description
        balance_after := quantize_amount acct.balance
        currency := acct.currency }
    { s with txnCounter := n, ledger := s.ledger ++ [txn] }

/-- The alerts produced by one `check_alerts` evaluation of an account,
with the alert counter threaded through: the low-balance rule first, the
overdraft rule second, each appending independently. -/
def alertsFor (account_id : String) (a : Account) (c : ℕ) (now : ℚ) : List Alert × ℕ :=
  let low : List Alert × ℕ :=
    if a.balance < 5000 ∧ a.currency = "AUD" then
      ([{ alert_id := padId "ALT" (c + 1)
          account_id := account_id
          severity := if a.balance < 2000 then Severity.high else Severity.medium
          message := "Low balance warning: " ++ a.account_name ++ " has "
            ++ fmtCents a.balance ++ " " ++ a.currency
          timestamp := now
          acknowledged := false }], c + 1)
    else ([], c)
  let od : List Alert × ℕ :=
    if a.balance < 0 then
      ([{ alert_id := padId "ALT" (low.2 + 1)
          account_id := account_id
          severity := Severity.high
          message := "OVERDRAFT: " ++ a.account_name ++ " is "
            ++ fmtCents |a.balance| ++ " " ++ a.currency ++ " overdrawn"
          timestamp := now
          acknowledged := false }], low.2 + 1)
    else ([], low.2)
  (low.1 ++ od.1, od.2)

/-- Python `check_alerts(account_id)`: evaluate the low-balance and overdraft
rules against the account's current balance and append the produced alerts
to `ALERTS`. -/
def check_alerts (s : BankState) (account_id : String) (now : ℚ) : BankState :=
  match s.accounts account_id with
  | none => s
  | some a =>
    let r := alertsFor account_id a s.alertCounter now
    { s with alerts := s.alerts ++ r.1, alertCounter := r.2 }

/-- One iteration of `balance_simulator` on the chosen account `k`.
`rawChange` is the randomly drawn delta before its `quantize(Decimal("0.01"))`
(the account-specific distributions are non-normative); the iteration
quantizes it, adds it to the balance with another `ROUND_HALF_EVEN`
quantize, clamps at the `-5000.00` floor, stamps `last_updated`, records
the transaction (`credit` iff the change is strictly positive) and runs
`check_alerts`. -/
def simIteration (s : BankState) (k : String) (rawChange : ℚ)
    (desc : String) (now : ℚ) : BankState :=
  match s.accounts k with
  | none => s
  | some a =>
    let change := quantize2HE rawChange
    let b1 := quantize2HE (a.balance + change)
    let b2 := if b1 < -5000 then (-5000 : ℚ) else b1
    let s1 := setAccount s k { a with balance := b2, last_updated := some now }
    let ty := if 0 < change then TxnType.credit else TxnType.debit
    let s2 := record_transaction s1 k change ty desc now
    check_alerts s2 k now

/-- The body of the `payment_processor` loop for a single payment: skip
anything not `pending`; past age 30 mark `processing`; past age 60 debit
the source account (when it exists), record the ledger debit, run
`check_alerts`, and mark the payment `completed`. -/
def procOne (now : ℚ) (s : BankState) (p : Payment) : BankState × Payment :=
  if p.status ≠ PaymentStatus.pending then (s, p)
  else
    let age := now - p.created_at
    let p1 := if 30 < age then { p with status := PaymentStatus.processing } else p
    if 60 < age then
      let s1 :=
        match s.accounts p.from_account with
        | none => s
        | some a =>
          let s' := setAccount s p.from_account { a with balance := a.balance - p.amount }
          let s'' := record_transaction s' p.from_account (-p.amount) TxnType.debit
            ("Payment to " ++ p.to_reference ++ ": " ++ p.description) now
          check_alerts s'' p.from_account now
      (s1, { p1 with status := PaymentStatus.completed, processed_at := some now })
    else (s, p1)

/-- The worker's pass over (a copy of) `PENDING_PAYMENTS`, threading the
shared state left to right. -/
def procList (now : ℚ) (s : BankState) : List Payment → BankState × List Payment
  | [] => (s, [])
  | p :: ps =>
    let r1 := procOne now s p
    let r2 := procList now r1.1 ps
    (r2.1, r1.2 :: r2.2)

/-- One 15-second tick of `payment_processor`: process every payment with
the tick's wall-clock time `now`. -/
def paymentTick (now : ℚ) (s : BankState) : BankState :=
  let r := procList now s s.payments
  { r.1 with payments := r.2 }

/-- Endpoint `POST /payments` (`create_payment`): unknown source account or a
non-positive amount is rejected (404/400, state unchanged); otherwise the
payment is appended as `pending` with the quantized amount and the source
account's currency. -/
def create_payment (s : BankState) (from_account to_reference : String)
    (amount : ℚ) (description : String) (now : ℚ) : BankState :=
  match s.accounts from_account with
  | none => s
  | some a =>
    if amount ≤ 0 then s
    else
      let n := s.paymentCounter + 1
      let p : Payment :=
        { payment_id := padId "PAY" n
          from_account := from_account
          to_reference := to_reference
          amount := quantize_amount amount
          currency := a.currency
          status := PaymentStatus.pending
          created_at := now
          processed_at := none
          description := description }
      { s with paymentCounter := n, payments := s.payments ++ [p] }

/-- The mutating operations of the core, as schedulable events: one
`balance_simulator` iteration, one `payment_processor` tick, one payment
submission.  (The cooperative scheduler interleaves them atomically, so a
run is a sequence of these.) -/
inductive Event where
  | sim (acctKey : String) (rawChange : ℚ) (desc : String) (now : ℚ)
  | payTick (now : ℚ)
  | submit (from_account to_reference : String) (amount : ℚ)
      (desc : String) (now : ℚ)

def step (s : BankState) : Event → BankState
  | Event.sim k c d t => simIteration s k c d t
  | Event.payTick t => paymentTick t s
  | Event.submit f r a d t => create_payment s f r a d t

def run (s : BankState) (es : List Event) : BankState := es.foldl step s

/-- Startup counter seeding: `TRANSACTION_COUNTER = len(transactions)`
when the reloaded log is non-empty, else the counter keeps its initial 0. -/
def loadCounter (l : List Txn) : ℕ := if l.isEmpty then 0 else l.length

/-- Python `lst[start:]` (slice-from, with negative-index and clamping
semantics). -/
def pySliceFrom (start : ℤ) (l : List α) : List α :=
  if start < 0 then l.drop (l.length - min start.natAbs l.length)
  else l.drop start.toNat

/-- Endpoint `GET /transactions` (`get_transactions`): optional account filter
(Python truthiness: `None` *and* the empty string skip the filter), then
`all_txns[-limit:][::-1]`. -/
def get_transactions (ledger : List Txn) (account_id : Option String)
    (limit : ℤ) : List Txn :=
  let ts :=
    match account_id with
    | none => ledger
    | some k => if k = "" then ledger else ledger.filter (fun t => t.account_id == k)
  (pySliceFrom (-limit) ts).reverse

/-- Modelled from the spec: the query contract as the spec words it —
filter by the given account, then the most recent `limit` records,
most-recent-first. -/
def specQuery (ledger : List Txn) (account_id : Option String) (limit : ℤ) : List Txn :=
  let ts :=
    match account_id with
    | none => ledger
    | some k => ledger.filter (fun t => t.account_id == k)
  ts.reverse.take limit.toNat

/-! ## C4: ledger sequence counter -/

/-- The counter/ledger relation maintained by every operation: the counter
equals the number of records, and the recorded ids are `TXN00000001 …
TXN<N>` in order. -/
def CtrInv (s : BankState) : Prop :=
  s.txnCounter = s.ledger.length ∧
  s.ledger.map Txn.transaction_id
    = (List.range s.txnCounter).map (fun i => padId "TXN" (i + 1))

/-! ## C9: the `failed` status is unreachable -/

def NoFailed (s : BankState) : Prop :=
  ∀ p ∈ s.payments, p.status ≠ PaymentStatus.failed

/-! ## C7: the transaction query -/

/-- A sample ledger record used in concrete counterexamples. -/
def exTxn : Txn :=
  { transaction_id := padId "TXN" 1
    account_id := "op_aud"
    timestamp := 0
    amount := 10
    type := TxnType.credit
    description := "d"
    balance_after := 20
    currency := "AUD" }

/-- A rational exactly representable with `d` decimal places. -/
def IsScaled (d : ℕ) (q : ℚ) : Prop := ∃ m : ℤ, q = (m : ℚ) / 10 ^ d

/-- A rational lying exactly halfway between two consecutive `d`-decimal
values — the tie cases that distinguish the rounding rules. -/
def IsTieAt (d : ℕ) (q : ℚ) : Prop := ∃ m : ℤ, q * 10 ^ d = (m : ℚ) + 1/2

/-! ## C2: replay consistency of the ledger -/

/-- The signed contribution of a ledger record when replaying: credit
magnitudes add, debit magnitudes subtract. -/
def signedAmt (t : Txn) : ℚ :=
  match t.type with
  | TxnType.credit => t.amount
  | TxnType.debit => -t.amount

/-- The sub-log of one account, in ledger order. -/
def txnsFor (k : String) (l : List Txn) : List Txn :=
  l.filter (fun t => t.account_id == k)

/-- Replay check: starting from `b`, fold the signed magnitudes and compare
the running balance with every stored `balance_after`, in order. -/
def replayOkB (b : ℚ) : List Txn → Bool
  | [] => true
  | t :: ts =>
    (decide (b + signedAmt t = t.balance_after)) && replayOkB (b + signedAmt t) ts

/-- The replayed final balance. -/
def replayFold (b : ℚ) (l : List Txn) : ℚ :=
  l.foldl (fun acc t => acc + signedAmt t) b

/-- Whether one event avoids the simulator's `-5000.00` clamp: for a
simulator iteration, the post-quantize balance must not be below the
floor; every other event trivially qualifies. -/
def noClampEvent (s : BankState) : Event → Bool
  | Event.sim k rawChange _ _ =>
    match s.accounts k with
    | none => true
    | some a => decide (-5000 ≤ quantize2HE (a.balance + quantize2HE rawChange))
  | _ => true

/-- Whether a whole run avoids the clamp at every simulator iteration. -/
def noClampRun : BankState → List Event → Bool
  | _, [] => true
  | s, e :: es => noClampEvent s e && noClampRun (step s e) es

/-- The replay invariant: every account seeded at startup is still
present, its balance is an exact cent value, and replaying its sub-log
from its initial balance passes every `balance_after` check and lands on
its current balance. -/
def ReplayInv (s : BankState) : Prop :=
  ∀ k a0, initState.accounts k = some a0 →
    ∃ a, s.accounts k = some a ∧ IsCent a.balance ∧
      replayOkB a0.balance (txnsFor k s.ledger) = true ∧
      replayFold a0.balance (txnsFor k s.ledger) = a.balance

/-- All pending payment amounts are non-negative cent values (they are
quantized at submission). -/
def PayAmountsOk (s : BankState) : Prop :=
  ∀ p ∈ s.payments, IsCent p.amount ∧ 0 ≤ p.amount

/-! ### Rounding lemmas -/

theorem halfUpInt_err (x : ℚ) : |(halfUpInt x : ℚ) - x| ≤ 1/2 := by
  unfold halfUpInt
  split_ifs with h
  · have h1 : (⌊x + 1/2⌋ : ℚ) ≤ x + 1/2 := Int.floor_le _
    have h2 : x + 1/2 < ⌊x + 1/2⌋ + 1 := Int.lt_floor_add_one _
    rw [abs_le]
    constructor <;> · push_cast at h1 h2 ⊢; linarith
  · have h1 : (⌊-x + 1/2⌋ : ℚ) ≤ -x + 1/2 := Int.floor_le _
    have h2 : -x + 1/2 < ⌊-x + 1/2⌋ + 1 := Int.lt_floor_add_one _
    rw [abs_le]
    constructor <;> · push_cast at h1 h2 ⊢; linarith

theorem halfEvenInt_err (x : ℚ) : |(halfEvenInt x : ℚ) - x| ≤ 1/2 := by
  unfold halfEvenInt
  have h1 : (⌊x⌋ : ℚ) ≤ x := Int.floor_le _
  have h2 : x < ⌊x⌋ + 1 := Int.lt_floor_add_one _
  split_ifs with ha hb hc <;> · rw [abs_le]; constructor <;> · push_cast at h1 h2 ⊢; linarith

theorem halfUpInt_intCast (n : ℤ) : halfUpInt (n : ℚ) = n := by
  unfold halfUpInt
  have hfl : ∀ m : ℤ, ⌊(m : ℚ) + 1/2⌋ = m := by
    intro m
    rw [Int.floor_eq_iff]
    constructor <;> · push_cast; norm_num
  split_ifs with h
  · exact hfl n
  · have := hfl (-n)
    push_cast at this
    rw [this]; ring

theorem halfEvenInt_intCast (n : ℤ) : halfEvenInt (n : ℚ) = n := by
  unfold halfEvenInt
  rw [Int.floor_intCast]
  norm_num

theorem IsCent.add {a b : ℚ} (ha : IsCent a) (hb : IsCent b) : IsCent (a + b) := by
  obtain ⟨m, hm⟩ := ha; obtain ⟨n, hn⟩ := hb
  exact ⟨m + n, by rw [hm, hn]; push_cast; ring⟩

theorem IsCent.neg {a : ℚ} (ha : IsCent a) : IsCent (-a) := by
  obtain ⟨m, hm⟩ := ha
  exact ⟨-m, by rw [hm]; push_cast; ring⟩

theorem IsCent.sub {a b : ℚ} (ha : IsCent a) (hb : IsCent b) : IsCent (a - b) :=
  (sub_eq_add_neg a b) ▸ ha.add hb.neg

theorem IsCent.abs {a : ℚ} (ha : IsCent a) : IsCent |a| := by
  obtain ⟨m, hm⟩ := ha
  refine ⟨|m|, ?_⟩
  rw [hm, abs_div]
  push_cast [Int.cast_abs]
  norm_num

theorem isCent_quantize_amount (q : ℚ) : IsCent (quantize_amount q) :=
  ⟨halfUpInt (q * 100), rfl⟩

theorem isCent_quantize2HE (q : ℚ) : IsCent (quantize2HE q) :=
  ⟨halfEvenInt (q * 100), rfl⟩

theorem quantize_amount_cent {q : ℚ} (h : IsCent q) : quantize_amount q = q := by
  obtain ⟨m, hm⟩ := h
  subst hm
  unfold quantize_amount
  have : (m : ℚ) / 100 * 100 = (m : ℚ) := by field_simp
  rw [this, halfUpInt_intCast]

theorem quantize2HE_cent {q : ℚ} (h : IsCent q) : quantize2HE q = q := by
  obtain ⟨m, hm⟩ := h
  subst hm
  unfold quantize2HE
  have : (m : ℚ) / 100 * 100 = (m : ℚ) := by field_simp
  rw [this, halfEvenInt_intCast]

theorem quantize_amount_nonneg {q : ℚ} (h : 0 ≤ q) : 0 ≤ quantize_amount q := by
  unfold quantize_amount halfUpInt
  have h100 : (0 : ℚ) ≤ q * 100 := by positivity
  rw [if_pos h100]
  have hfl : (0 : ℤ) ≤ ⌊q * 100 + 1/2⌋ := Int.floor_nonneg.mpr (by linarith)
  positivity

/-! ## Frame lemmas for the mutating operations -/

theorem check_alerts_accounts (s : BankState) (k : String) (now : ℚ) :
    (check_alerts s k now).accounts = s.accounts := by
  unfold check_alerts
  cases s.accounts k <;> rfl

theorem check_alerts_ledger (s : BankState) (k : String) (now : ℚ) :
    (check_alerts s k now).ledger = s.ledger := by
  unfold check_alerts
  cases s.accounts k <;> rfl

theorem check_alerts_txnCounter (s : BankState) (k : String) (now : ℚ) :
    (check_alerts s k now).txnCounter = s.txnCounter := by
  unfold check_alerts
  cases s.accounts k <;> rfl

theorem check_alerts_payments (s : BankState) (k : String) (now : ℚ) :
    (check_alerts s k now).payments = s.payments := by
  unfold check_alerts
  cases s.accounts k <;> rfl

theorem record_transaction_accounts (s : BankState) (k : String) (amt : ℚ)
    (ty : TxnType) (d : String) (now : ℚ) :
    (record_transaction s k amt ty d now).accounts = s.accounts := by
  unfold record_transaction
  cases s.accounts k <;> rfl

theorem record_transaction_payments (s : BankState) (k : String) (amt : ℚ)
    (ty : TxnType) (d : String) (now : ℚ) :
    (record_transaction s k amt ty d now).payments = s.payments := by
  unfold record_transaction
  cases s.accounts k <;> rfl

theorem setAccount_payments (s : BankState) (k : String) (a : Account) :
    (setAccount s k a).payments = s.payments := rfl

theorem setAccount_ledger (s : BankState) (k : String) (a : Account) :
    (setAccount s k a).ledger = s.ledger := rfl

theorem setAccount_txnCounter (s : BankState) (k : String) (a : Account) :
    (setAccount s k a).txnCounter = s.txnCounter := rfl

theorem simIteration_payments (s : BankState) (k : String) (c : ℚ)
    (d : String) (now : ℚ) : (simIteration s k c d now).payments = s.payments := by
  unfold simIteration
  cases h : s.accounts k
  · rfl
  · simp only [check_alerts_payments, record_transaction_payments, setAccount_payments]

theorem procOne_amount (now : ℚ) (s : BankState) (p : Payment) :
    (procOne now s p).2.amount = p.amount := by
  unfold procOne
  dsimp only
  split_ifs <;> simp [apply_ite Payment.amount]

theorem procOne_status (now : ℚ) (s : BankState) (p : Payment) :
    (procOne now s p).2.status = p.status ∨
      (procOne now s p).2.status = PaymentStatus.processing ∨
      (procOne now s p).2.status = PaymentStatus.completed := by
  unfold procOne
  dsimp only
  split_ifs <;> simp [apply_ite Payment.status]

/-! ## C6: the simulator's clamp floor -/

/-- C6.  After every `balance_simulator` iteration's clamp step, the
mutated account's balance is at least `-5000.00`: whatever state the
iteration starts from, the account it touched ends at or above the floor. -/
theorem c6_sim_floor (s : BankState) (k : String) (rawChange : ℚ)
    (desc : String) (now : ℚ) (a0 a : Account)
    (h0 : s.accounts k = some a0)
    (h : (simIteration s k rawChange desc now).accounts k = some a) :
    -5000 ≤ a.balance := by
  unfold simIteration at h
  rw [h0] at h
  simp only [check_alerts_accounts, record_transaction_accounts] at h
  unfold setAccount at h
  simp only [eq_self_iff_true, if_true, Option.some.injEq] at h
  subst h
  dsimp only
  split_ifs with hb
  · linarith
  · linarith

/-- Witness for C6: one concrete simulator iteration on `op_aud` with a
`-50000.00` draw hits the clamp and ends exactly at the floor. -/
theorem c6_sim_floor_witness :
    -5000 ≤ (Account.mk "op_aud" "Operating Account" "AUD" (-5000) (some 0)).balance :=
  c6_sim_floor initState "op_aud" (-50000) "Operating activity" 0
    (Account.mk "op_aud" "Operating Account" "AUD" (1653245/100) none)
    (Account.mk "op_aud" "Operating Account" "AUD" (-5000) (some 0))
    (by norm_num [initState, initAccounts])
    (by
      norm_num [simIteration, initState, initAccounts, check_alerts_accounts,
        record_transaction_accounts, setAccount, quantize2HE, halfEvenInt])

/-! ## C10: completing a payment with an unknown source account -/

/-- C10.  When the worker completes a payment whose source account id is
not in `ACCOUNTS`, the payment is still marked `completed` with its
completion timestamp set, while the accounts map, the ledger, the alert
collection and all counters are left untouched. -/
theorem c10_unknown_account_frame (now : ℚ) (s : BankState) (p : Payment)
    (h1 : p.status = PaymentStatus.pending)
    (h2 : 60 < now - p.created_at)
    (h3 : s.accounts p.from_account = none) :
    (procOne now s p).1 = s ∧
      (procOne now s p).2.status = PaymentStatus.completed ∧
      (procOne now s p).2.processed_at = some now := by
  unfold procOne
  rw [if_neg (by simp [h1])]
  dsimp only
  rw [if_pos h2, h3]
  exact ⟨rfl, rfl, rfl⟩

/-- Witness for C10: a concrete pending payment from the unknown account
id `"ghost"`, probed at age 100s, completes without touching the state. -/
theorem c10_unknown_account_frame_witness :
    (procOne 100 initState
        (Payment.mk "PAY00000001" "ghost" "R1" 25 "AUD" PaymentStatus.pending 0 none "x")).1
        = initState ∧
      (procOne 100 initState
        (Payment.mk "PAY00000001" "ghost" "R1" 25 "AUD" PaymentStatus.pending 0 none "x")).2.status
        = PaymentStatus.completed ∧
      (procOne 100 initState
        (Payment.mk "PAY00000001" "ghost" "R1" 25 "AUD" PaymentStatus.pending 0 none "x")).2.processed_at
        = some 100 :=
  c10_unknown_account_frame 100 initState
    (Payment.mk "PAY00000001" "ghost" "R1" 25 "AUD" PaymentStatus.pending 0 none "x")
    rfl (by norm_num) (by decide)

/-! ## C5: the alert rules -/

/-- C5.  One `check_alerts` evaluation appends exactly: a low-balance
alert when the account's currency is `"AUD"` and its balance is strictly
below 5000 (severity `high` below 2000, else `medium`), and independently a
high-severity overdraft alert when the balance is strictly negative; a
balance of 5000.00 or above (or a non-AUD currency) contributes no
low-balance alert, a non-negative balance no overdraft alert, and both
rules can fire in the same call. -/
theorem c5_alert_rules (s : BankState) (k : String) (now : ℚ) (a : Account)
    (h : s.accounts k = some a) :
    ∃ low od : List Alert,
      (check_alerts s k now).alerts = s.alerts ++ (low ++ od) ∧
      (a.currency = "AUD" → a.balance < 5000 →
        ∃ al, low = [al] ∧ al.account_id = k ∧
          al.severity = (if a.balance < 2000 then Severity.high else Severity.medium)) ∧
      (¬(a.balance < 5000 ∧ a.currency = "AUD") → low = []) ∧
      (a.balance < 0 →
        ∃ al, od = [al] ∧ al.account_id = k ∧ al.severity = Severity.high) ∧
      (0 ≤ a.balance → od = []) := by
  unfold check_alerts
  rw [h]
  dsimp only
  unfold alertsFor
  dsimp only
  by_cases h1 : a.balance < 5000 ∧ a.currency = "AUD" <;>
    by_cases h2 : a.balance < 0
  · rw [if_pos h1, if_pos h2]
    refine ⟨_, _, rfl, ?_, ?_, ?_, ?_⟩
    · intro _ _; exact ⟨_, rfl, rfl, rfl⟩
    · intro hc; exact absurd h1 hc
    · intro _; exact ⟨_, rfl, rfl, rfl⟩
    · intro h0; exact absurd h2 (not_lt.mpr h0)
  · rw [if_pos h1, if_neg h2]
    refine ⟨_, _, rfl, ?_, ?_, ?_, ?_⟩
    · intro _ _; exact ⟨_, rfl, rfl, rfl⟩
    · intro hc; exact absurd h1 hc
    · intro hneg; exact absurd hneg h2
    · intro _; rfl
  · rw [if_neg h1, if_pos h2]
    refine ⟨_, _, rfl, ?_, ?_, ?_, ?_⟩
    · intro hcur hlt; exact absurd ⟨hlt, hcur⟩ h1
    · intro _; rfl
    · intro _; exact ⟨_, rfl, rfl, rfl⟩
    · intro h0; exact absurd h2 (not_lt.mpr h0)
  · rw [if_neg h1, if_neg h2]
    refine ⟨_, _, rfl, ?_, ?_, ?_, ?_⟩
    · intro hcur hlt; exact absurd ⟨hlt, hcur⟩ h1
    · intro _; rfl
    · intro hneg; exact absurd hneg h2
    · intro _; rfl

/-- Witness for C5: an AUD account overdrawn by one cent fires both rules
in the same evaluation. -/
theorem c5_alert_rules_witness :
    ∃ low od : List Alert,
      (check_alerts
          (BankState.mk
            (fun j => if j = "op_aud"
              then some (Account.mk "op_aud" "Operating Account" "AUD" (-1/100) none)
              else none)
            [] [] [] 0 0 0)
          "op_aud" 7).alerts = [] ++ (low ++ od) ∧
      ((Account.mk "op_aud" "Operating Account" "AUD" (-1/100) none).currency = "AUD" →
        (Account.mk "op_aud" "Operating Account" "AUD" (-1/100) none).balance < 5000 →
        ∃ al, low = [al] ∧ al.account_id = "op_aud" ∧
          al.severity =
            (if (Account.mk "op_aud" "Operating Account" "AUD" (-1/100) none).balance < 2000
              then Severity.high else Severity.medium)) ∧
      (¬((Account.mk "op_aud" "Operating Account" "AUD" (-1/100) none).balance < 5000 ∧
          (Account.mk "op_aud" "Operating Account" "AUD" (-1/100) none).currency = "AUD") →
        low = []) ∧
      ((Account.mk "op_aud" "Operating Account" "AUD" (-1/100) none).balance < 0 →
        ∃ al, od = [al] ∧ al.account_id = "op_aud" ∧ al.severity = Severity.high) ∧
      (0 ≤ (Account.mk "op_aud" "Operating Account" "AUD" (-1/100) none).balance →
        od = []) :=
  c5_alert_rules _ "op_aud" 7
    (Account.mk "op_aud" "Operating Account" "AUD" (-1/100) none)
    (by norm_num)

theorem ctrInv_of_eq {s s' : BankState} (hl : s'.ledger = s.ledger)
    (hc : s'.txnCounter = s.txnCounter) (h : CtrInv s) : CtrInv s' := by
  unfold CtrInv
  rw [hl, hc]
  exact h

theorem ctrInv_record (s : BankState) (k : String) (amt : ℚ) (ty : TxnType)
    (d : String) (now : ℚ) (h : CtrInv s) :
    CtrInv (record_transaction s k amt ty d now) := by
  unfold record_transaction
  cases hk : s.accounts k
  · exact h
  · obtain ⟨h1, h2⟩ := h
    dsimp only
    constructor
    · simp [h1]
    · rw [List.map_append, h2, List.range_succ, List.map_append]
      simp

theorem ctrInv_check (s : BankState) (k : String) (now : ℚ) (h : CtrInv s) :
    CtrInv (check_alerts s k now) :=
  ctrInv_of_eq (check_alerts_ledger s k now) (check_alerts_txnCounter s k now) h

theorem ctrInv_sim (s : BankState) (k : String) (c : ℚ) (d : String) (now : ℚ)
    (h : CtrInv s) : CtrInv (simIteration s k c d now) := by
  unfold simIteration
  cases hk : s.accounts k
  · exact h
  · exact ctrInv_check _ _ _ (ctrInv_record _ _ _ _ _ _ (ctrInv_of_eq rfl rfl h))

/-- What one `procOne` call does to the shared state: nothing, or — when
it completes a payment whose source account exists — the
debit/record/alert sequence. -/
theorem procOne_fst (now : ℚ) (s : BankState) (p : Payment) :
    (procOne now s p).1 = s ∨
    ∃ a, s.accounts p.from_account = some a ∧
      (procOne now s p).1 =
        check_alerts
          (record_transaction
            (setAccount s p.from_account
              { a with balance := a.balance - p.amount })
            p.from_account (-p.amount) TxnType.debit
            ("Payment to " ++ p.to_reference ++ ": " ++ p.description) now)
          p.from_account now := by
  unfold procOne
  dsimp only
  split_ifs <;>
    first
      | exact Or.inl rfl
      | cases hk : s.accounts p.from_account with
          | none => exact Or.inl rfl
          | some a => exact Or.inr ⟨a, rfl, rfl⟩

theorem create_payment_ledger (s : BankState) (f r : String) (a : ℚ)
    (d : String) (t : ℚ) : (create_payment s f r a d t).ledger = s.ledger := by
  unfold create_payment
  cases s.accounts f
  · rfl
  · dsimp only
    split_ifs <;> rfl

theorem create_payment_txnCounter (s : BankState) (f r : String) (a : ℚ)
    (d : String) (t : ℚ) :
    (create_payment s f r a d t).txnCounter = s.txnCounter := by
  unfold create_payment
  cases s.accounts f
  · rfl
  · dsimp only
    split_ifs <;> rfl

theorem create_payment_accounts (s : BankState) (f r : String) (a : ℚ)
    (d : String) (t : ℚ) :
    (create_payment s f r a d t).accounts = s.accounts := by
  unfold create_payment
  cases s.accounts f
  · rfl
  · dsimp only
    split_ifs <;> rfl

/-- Every payment present after a submission was either already there or
was appended in status `pending`. -/
theorem create_payment_mem (s : BankState) (f r : String) (a : ℚ)
    (d : String) (t : ℚ) (p : Payment)
    (hp : p ∈ (create_payment s f r a d t).payments) :
    p ∈ s.payments ∨ p.status = PaymentStatus.pending := by
  unfold create_payment at hp
  cases hk : s.accounts f <;> rw [hk] at hp
  · exact Or.inl hp
  · dsimp only at hp
    split_ifs at hp
    · exact Or.inl hp
    · rcases List.mem_append.mp hp with hold | hnew
      · exact Or.inl hold
      · rw [List.mem_singleton] at hnew
        subst hnew
        exact Or.inr rfl

theorem ctrInv_procOne (now : ℚ) (s : BankState) (p : Payment) (h : CtrInv s) :
    CtrInv (procOne now s p).1 := by
  rcases procOne_fst now s p with heq | ⟨a, _, heq⟩ <;> rw [heq]
  · exact h
  · exact ctrInv_check _ _ _ (ctrInv_record _ _ _ _ _ _ (ctrInv_of_eq rfl rfl h))

theorem ctrInv_procList (now : ℚ) (s : BankState) (ps : List Payment)
    (h : CtrInv s) : CtrInv (procList now s ps).1 := by
  induction ps generalizing s with
  | nil => exact h
  | cons p rest ih => exact ih _ (ctrInv_procOne now s p h)

theorem ctrInv_step (s : BankState) (e : Event) (h : CtrInv s) :
    CtrInv (step s e) := by
  cases e with
  | sim k c d t => exact ctrInv_sim s k c d t h
  | payTick t =>
    exact ctrInv_of_eq rfl rfl (ctrInv_procList t s s.payments h)
  | submit f r a d t =>
    exact ctrInv_of_eq (create_payment_ledger s f r a d t)
      (create_payment_txnCounter s f r a d t) h

theorem ctrInv_run (es : List Event) (s : BankState) (h : CtrInv s) :
    CtrInv (run s es) := by
  induction es generalizing s with
  | nil => exact h
  | cons e rest ih => exact ih _ (ctrInv_step s e h)

theorem loadCounter_eq_length (l : List Txn) : loadCounter l = l.length := by
  unfold loadCounter
  split_ifs with h
  · rw [List.isEmpty_iff] at h
    rw [h]
    rfl
  · rfl

/-- C4.  In any run from the fresh state (empty log, counter 0), after the
`N` appends the run performed the sequence counter equals `N`, the ledger
holds exactly the ids `TXN00000001 … TXN<N>` in order (so the sequence is
monotonic and never reused), and the startup reload
(`TRANSACTION_COUNTER = len(transactions)` when non-empty) reconstructs
the same counter value. -/
theorem c4_counter_reload (es : List Event) :
    (run initState es).txnCounter = (run initState es).ledger.length ∧
    (run initState es).ledger.map Txn.transaction_id
      = (List.range (run initState es).txnCounter).map (fun i => padId "TXN" (i + 1)) ∧
    loadCounter (run initState es).ledger = (run initState es).txnCounter := by
  have h := ctrInv_run es initState ⟨rfl, rfl⟩
  exact ⟨h.1, h.2, by rw [loadCounter_eq_length, h.1]⟩

theorem noFailed_procList (now : ℚ) (s : BankState) (ps : List Payment)
    (hps : ∀ p ∈ ps, p.status ≠ PaymentStatus.failed) :
    ∀ p' ∈ (procList now s ps).2, p'.status ≠ PaymentStatus.failed := by
  induction ps generalizing s with
  | nil =>
    intro p' hp'
    simp [procList] at hp'
  | cons p rest ih =>
    intro p' hp'
    unfold procList at hp'
    dsimp only at hp'
    rcases List.mem_cons.mp hp' with hhead | htail
    · subst hhead
      rcases procOne_status now s p with h | h | h
      · rw [h]; exact hps p (List.mem_cons_self p rest)
      · rw [h]; simp
      · rw [h]; simp
    · exact ih _ (fun q hq => hps q (List.mem_cons_of_mem _ hq)) p' htail

theorem noFailed_step (s : BankState) (e : Event) (h : NoFailed s) :
    NoFailed (step s e) := by
  cases e with
  | sim k c d t =>
    intro p hp
    rw [show step s (Event.sim k c d t) = simIteration s k c d t from rfl,
      simIteration_payments] at hp
    exact h p hp
  | payTick t =>
    intro p hp
    exact noFailed_procList t s s.payments h p hp
  | submit f r a d t =>
    intro p hp
    rcases create_payment_mem s f r a d t p hp with hold | hpend
    · exact h p hold
    · rw [hpend]
      simp

theorem noFailed_run (es : List Event) (s : BankState) (h : NoFailed s) :
    NoFailed (run s es) := by
  induction es generalizing s with
  | nil => exact h
  | cons e rest ih => exact ih _ (noFailed_step s e h)

/-- C9.  In every state reachable from the fresh state by simulator
iterations, worker ticks and payment submissions, no payment ever has
status `failed`: submission creates payments as `pending` and the worker
only ever assigns `processing` or `completed`. -/
theorem c9_no_failed (es : List Event) (p : Payment)
    (hp : p ∈ (run initState es).payments) : p.status ≠ PaymentStatus.failed :=
  noFailed_run es initState (by intro q hq; simp [initState] at hq) p hp

/-- Witness for C9: the payment created by one concrete submission is not
`failed`. -/
theorem c9_no_failed_witness :
    (Payment.mk (padId "PAY" 1) "op_aud" "R1" 500 "AUD" PaymentStatus.pending 0
        none "rent").status ≠ PaymentStatus.failed :=
  c9_no_failed [Event.submit "op_aud" "R1" 500 "rent" 0]
    (Payment.mk (padId "PAY" 1) "op_aud" "R1" 500 "AUD" PaymentStatus.pending 0
        none "rent")
    (by norm_num [run, step, create_payment, initState, initAccounts,
      quantize_amount, halfUpInt])

/-- Counterexample to C7 as stated: for `limit = 0` Python's `[-0:]`
slice returns the whole log (the claim demands the most recent 0 records,
i.e. none), and an empty-string account filter is skipped by Python
truthiness (the claim demands filtering, which would leave no matching
record). -/
theorem c7_counterexample :
    get_transactions [exTxn] none 0 = [exTxn] ∧
    specQuery [exTxn] none 0 = [] ∧
    get_transactions [exTxn] (some "") 1 = [exTxn] ∧
    specQuery [exTxn] (some "") 1 = [] ∧
    exTxn.account_id ≠ "" := by
  refine ⟨rfl, rfl, rfl, by decide, by decide⟩

theorem pySliceFrom_reverse {α : Type} (limit : ℤ) (h : 1 ≤ limit) (l : List α) :
    (pySliceFrom (-limit) l).reverse = l.reverse.take limit.toNat := by
  unfold pySliceFrom
  rw [if_pos (by omega : -limit < 0)]
  have hmin : l.length - min (-limit).natAbs l.length = l.length - limit.toNat := by
    omega
  rw [hmin, ← List.take_reverse]

/-- C7 as amended: for an account filter that is absent or a non-empty id
and a caller-supplied limit of at least 1, the query filters by account
first and then returns the most recent `min(limit, count)` matching
records, most-recent-first.  (For `limit ≤ 0` the `[-limit:]` slice does
not truncate, and an empty-string filter is skipped — the counterexample.) -/
theorem c7_query_amended (ledger : List Txn) (account_id : Option String)
    (limit : ℤ) (hlim : 1 ≤ limit)
    (hacc : ∀ k, account_id = some k → k ≠ "") :
    get_transactions ledger account_id limit = specQuery ledger account_id limit := by
  unfold get_transactions specQuery
  cases account_id with
  | none => exact pySliceFrom_reverse limit hlim ledger
  | some k =>
    dsimp only
    rw [if_neg (hacc k rfl)]
    exact pySliceFrom_reverse limit hlim _

/-- Witness for C7 (amended): a concrete one-record query with limit 1. -/
theorem c7_query_amended_witness :
    get_transactions [exTxn] none 1 = specQuery [exTxn] none 1 :=
  c7_query_amended [exTxn] none 1 (by norm_num) (fun k h => by cases h)

/-! ## C8: the FX step bound -/

/-- Counterexample to C8 as stated: from rate `0.0300` with the maximal
in-band drift `u = 0.005`, the tick produces `0.0302` (the 4-decimal
quantize rounds the tie `0.03015` outward), which is farther than 0.5%
from the previous rate (`0.00020 > 0.00015`). -/
theorem c8_counterexample :
    fxTick (3/100) (1/200) = 302/10000 ∧
    ¬ (|fxTick (3/100) (1/200) - 3/100| ≤ (5/1000) * (3/100)) := by
  constructor
  · norm_num [fxTick, quantize4HE, halfEvenInt]
  · norm_num [fxTick, quantize4HE, halfEvenInt, abs_le]

/-- C8 as amended: one FX tick moves the rate by at most 0.5% of the
previous (non-negative) rate plus the quantization slack of half an ulp,
`0.00005`. -/
theorem c8_fx_band_amended (prev u : ℚ) (h0 : 0 ≤ prev)
    (h1 : -(5/1000) ≤ u) (h2 : u ≤ 5/1000) :
    |fxTick prev u - prev| ≤ (5/1000) * prev + 1/20000 := by
  have hq : |fxTick prev u - prev * (1 + u)| ≤ 1/20000 := by
    unfold fxTick quantize4HE
    have herr := halfEvenInt_err (prev * (1 + u) * 10000)
    have hkey : (halfEvenInt (prev * (1 + u) * 10000) : ℚ) / 10000 - prev * (1 + u)
        = ((halfEvenInt (prev * (1 + u) * 10000) : ℚ) - prev * (1 + u) * 10000) / 10000 := by
      ring
    rw [hkey, abs_div]
    rw [show |(10000 : ℚ)| = 10000 by norm_num]
    linarith [herr]
  have hu : |u| ≤ 5/1000 := abs_le.mpr ⟨by linarith, h2⟩
  have hdrift : |prev * (1 + u) - prev| ≤ (5/1000) * prev := by
    have : prev * (1 + u) - prev = prev * u := by ring
    rw [this, abs_mul, abs_of_nonneg h0]
    calc prev * |u| ≤ prev * (5/1000) := mul_le_mul_of_nonneg_left hu h0
      _ = (5/1000) * prev := by ring
  calc |fxTick prev u - prev|
      ≤ |fxTick prev u - prev * (1 + u)| + |prev * (1 + u) - prev| :=
        abs_sub_le _ _ _
    _ ≤ (5/1000) * prev + 1/20000 := by linarith

/-- Witness for C8 (amended): the bound at `prev = 1`, `u = 0`. -/
theorem c8_fx_band_amended_witness :
    |fxTick 1 0 - 1| ≤ (5/1000) * 1 + 1/20000 :=
  c8_fx_band_amended 1 0 (by norm_num) (by norm_num) (by norm_num)

/-! ## C3: the rounding rules -/

/-- Counterexample to C3 as stated: the quantizations inside
`fx_rate_updater` and `balance_simulator` use Python's *default*
`ROUND_HALF_EVEN`, not round-half-up.  At `1.00005` the FX tick yields
`1.0000` where round-half-up to 4 places yields `1.0001`; at `0.005` the
simulator's 2-place quantize yields `0.00` where round-half-up yields
`0.01`.  (`quantize_amount` itself does round half-up.) -/
theorem c3_counterexample :
    fxTick 1 (1/20000) = 1 ∧
    quantize4HUspec (1 * (1 + 1/20000)) = 10001/10000 ∧
    (1 : ℚ) ≠ 10001/10000 ∧
    quantize2HE (1/200) = 0 ∧
    quantize_amount (1/200) = 1/100 ∧
    (0 : ℚ) ≠ 1/100 := by
  refine ⟨?_, ?_, by norm_num, ?_, ?_, by norm_num⟩
  · norm_num [fxTick, quantize4HE, halfEvenInt]
  · norm_num [quantize4HUspec, halfUpInt]
  · norm_num [quantize2HE, halfEvenInt]
  · norm_num [quantize_amount, halfUpInt]

theorem halfUpInt_tie (m : ℤ) :
    halfUpInt ((m : ℚ) + 1/2) = if 0 ≤ m then m + 1 else m := by
  unfold halfUpInt
  by_cases hm : 0 ≤ m
  · have hmq : (0 : ℚ) ≤ (m : ℚ) := by exact_mod_cast hm
    rw [if_pos (by linarith), if_pos hm]
    rw [show (m : ℚ) + 1/2 + 1/2 = ((m + 1 : ℤ) : ℚ) by push_cast; ring]
    exact Int.floor_intCast _
  · have hm1 : m ≤ -1 := by omega
    have hmq : (m : ℚ) ≤ -1 := by exact_mod_cast hm1
    rw [if_neg (by linarith), if_neg hm]
    rw [show -((m : ℚ) + 1/2) + 1/2 = ((-m : ℤ) : ℚ) by push_cast; ring]
    rw [Int.floor_intCast]
    ring

theorem halfEvenInt_tie (m : ℤ) :
    ∃ j : ℤ, halfEvenInt ((m : ℚ) + 1/2) = 2 * j := by
  unfold halfEvenInt
  have hfl : ⌊(m : ℚ) + 1/2⌋ = m := by
    rw [Int.floor_int_add]
    norm_num
  rw [hfl]
  rw [show (m : ℚ) + 1/2 - (m : ℚ) = 1/2 by ring]
  norm_num
  split_ifs with hd
  · obtain ⟨t, ht⟩ := hd
    exact ⟨t, by omega⟩
  · rcases Int.even_or_odd m with he | ho
    · obtain ⟨j, hj⟩ := he
      exact absurd ⟨j, by omega⟩ hd
    · obtain ⟨j, hj⟩ := ho
      exact ⟨j + 1, by omega⟩

/-- C3 as amended: `quantize_amount` does round to the nearest 2-decimal
value with ties away from zero (round-half-up), but the quantizations
inside `balance_simulator` (2 places) and `fx_rate_updater` (4 places)
round to nearest with ties to the *even* scaled digit (`ROUND_HALF_EVEN`,
Python's default): at every tie they land on an even multiple of the
quantum instead of the away-from-zero neighbour. -/
theorem c3_rounding_amended (q : ℚ) :
    (IsScaled 2 (quantize_amount q) ∧ |quantize_amount q - q| ≤ 1/200 ∧
      (IsTieAt 2 q → |quantize_amount q| = |q| + 1/200)) ∧
    (IsScaled 2 (quantize2HE q) ∧ |quantize2HE q - q| ≤ 1/200 ∧
      (IsTieAt 2 q → ∃ j : ℤ, quantize2HE q = ((2 * j : ℤ) : ℚ) / 100)) ∧
    (IsScaled 4 (quantize4HE q) ∧ |quantize4HE q - q| ≤ 1/20000 ∧
      (IsTieAt 4 q → ∃ j : ℤ, quantize4HE q = ((2 * j : ℤ) : ℚ) / 10000)) := by
  refine ⟨⟨⟨halfUpInt (q * 100), by unfold quantize_amount; norm_num⟩, ?_, ?_⟩,
    ⟨⟨halfEvenInt (q * 100), by unfold quantize2HE; norm_num⟩, ?_, ?_⟩,
    ⟨⟨halfEvenInt (q * 10000), by unfold quantize4HE; norm_num⟩, ?_, ?_⟩⟩
  · have herr := halfUpInt_err (q * 100)
    unfold quantize_amount
    rw [show (halfUpInt (q * 100) : ℚ) / 100 - q
        = ((halfUpInt (q * 100) : ℚ) - q * 100) / 100 by ring, abs_div]
    rw [show |(100 : ℚ)| = 100 by norm_num]
    linarith
  · rintro ⟨m, hm⟩
    have hq : q = ((m : ℚ) + 1/2) / 100 := by
      rw [eq_div_iff (by norm_num : (100 : ℚ) ≠ 0)]
      linarith [hm]
    subst hq
    unfold quantize_amount
    rw [show ((m : ℚ) + 1/2) / 100 * 100 = (m : ℚ) + 1/2 by ring, halfUpInt_tie]
    by_cases hm0 : 0 ≤ m
    · have hmq : (0 : ℚ) ≤ (m : ℚ) := by exact_mod_cast hm0
      rw [if_pos hm0]
      rw [abs_of_nonneg (by push_cast; linarith), abs_of_nonneg (by linarith)]
      push_cast
      ring
    · have hm1 : m ≤ -1 := by omega
      have hmq : (m : ℚ) ≤ -1 := by exact_mod_cast hm1
      rw [if_neg hm0]
      rw [abs_of_nonpos (by push_cast; linarith), abs_of_nonpos (by linarith)]
      push_cast
      ring
  · have herr := halfEvenInt_err (q * 100)
    unfold quantize2HE
    rw [show (halfEvenInt (q * 100) : ℚ) / 100 - q
        = ((halfEvenInt (q * 100) : ℚ) - q * 100) / 100 by ring, abs_div]
    rw [show |(100 : ℚ)| = 100 by norm_num]
    linarith
  · rintro ⟨m, hm⟩
    unfold quantize2HE
    rw [show q * 100 = q * 10 ^ 2 by norm_num, hm]
    obtain ⟨j, hj⟩ := halfEvenInt_tie m
    exact ⟨j, by rw [hj]⟩
  · have herr := halfEvenInt_err (q * 10000)
    unfold quantize4HE
    rw [show (halfEvenInt (q * 10000) : ℚ) / 10000 - q
        = ((halfEvenInt (q * 10000) : ℚ) - q * 10000) / 10000 by ring, abs_div]
    rw [show |(10000 : ℚ)| = 10000 by norm_num]
    linarith
  · rintro ⟨m, hm⟩
    unfold quantize4HE
    rw [show q * 10000 = q * 10 ^ 4 by norm_num, hm]
    obtain ⟨j, hj⟩ := halfEvenInt_tie m
    exact ⟨j, by rw [hj]⟩

/-- Witness for C3 (amended), at the 2-decimal tie `q = 0.005`:
`quantize_amount` moves away from zero, the simulator quantize lands on an
even multiple of `0.01`. -/
theorem c3_rounding_amended_witness :
    |quantize_amount (1/200)| = |(1/200 : ℚ)| + 1/200 ∧
    (∃ j : ℤ, quantize2HE (1/200) = ((2 * j : ℤ) : ℚ) / 100) :=
  ⟨(c3_rounding_amended (1/200)).1.2.2 ⟨0, by norm_num⟩,
   (c3_rounding_amended (1/200)).2.1.2.2 ⟨0, by norm_num⟩⟩

/-! ## C1: the payment worker never completes a `processing` payment

The worker's loop body starts with `if payment["status"] != "pending":
continue`, so a payment that a previous tick already moved to `processing`
is skipped forever; the `age > 60` completion arm is reachable only on a
tick whose age already exceeds 60 while the payment is still `pending`.
With the 15-second tick cadence some tick always lands in the (30, 60]
window, so every payment gets stuck in `processing` and the debit, ledger
append, alert evaluation and completion timestamp never happen. -/

/-- C1 (code bug, demonstrated): a payment of 500.00 submitted from
`op_aud` at `t = 0`, probed by worker ticks at `t = 45` and `t = 1000`, is
still `processing` with no completion timestamp after the second tick —
although its age is far past 60s — and no debit, ledger record or alert
was ever produced: the state machine never reaches `completed` once a tick
has landed in the (30, 60] window. -/
theorem c1_stuck_in_processing :
    (run initState [Event.submit "op_aud" "R1" 500 "rent" 0,
        Event.payTick 45, Event.payTick 1000]).payments
      = [Payment.mk (padId "PAY" 1) "op_aud" "R1" 500 "AUD"
          PaymentStatus.processing 0 none "rent"] ∧
    (run initState [Event.submit "op_aud" "R1" 500 "rent" 0,
        Event.payTick 45, Event.payTick 1000]).ledger = [] ∧
    (run initState [Event.submit "op_aud" "R1" 500 "rent" 0,
        Event.payTick 45, Event.payTick 1000]).alerts = [] ∧
    (run initState [Event.submit "op_aud" "R1" 500 "rent" 0,
        Event.payTick 45, Event.payTick 1000]).accounts "op_aud"
      = some (Account.mk "op_aud" "Operating Account" "AUD" (1653245/100) none) := by
  norm_num [run, step, create_payment, paymentTick, procList, procOne,
    initState, initAccounts, quantize_amount, halfUpInt]
  simp only [if_neg
    (show ¬(PaymentStatus.processing = PaymentStatus.pending) from by decide)]
  norm_num [initAccounts]

/-- Counterexample to C2 as stated: drive `op_aud` near the floor, then
hit the clamp with a further `-2000.00` draw.  The clamped iteration
records `amount = 2000.00` (the unclamped magnitude) with
`balance_after = -5000.00`, so the replayed running balance
(`-4467.55 - 2000 = -6467.55`) does not reproduce the stored
`balance_after`, and the replay check fails. -/
theorem c2_counterexample :
    initState.accounts "op_aud"
      = some (Account.mk "op_aud" "Operating Account" "AUD" (1653245/100) none) ∧
    replayOkB (1653245/100)
      (txnsFor "op_aud"
        (run initState
          [Event.sim "op_aud" (-21000) "Supplier payment" 1,
           Event.sim "op_aud" (-2000) "Supplier payment" 2]).ledger) = false := by
  constructor
  · norm_num [initState, initAccounts]
  · norm_num [run, step, simIteration, setAccount, record_transaction,
      check_alerts, initState, initAccounts, quantize2HE, quantize_amount,
      halfEvenInt, halfUpInt, txnsFor, replayOkB, signedAmt]

/-! ### Replay invariant -/

theorem setAccount_lookup_eq (s : BankState) (k : String) (a : Account) :
    (setAccount s k a).accounts k = some a := by
  unfold setAccount
  simp

theorem setAccount_lookup_ne (s : BankState) (k : String) (a : Account)
    (j : String) (h : j ≠ k) : (setAccount s k a).accounts j = s.accounts j := by
  unfold setAccount
  simp [h]

theorem record_transaction_eq (s : BankState) (k : String) (amt : ℚ)
    (ty : TxnType) (d : String) (now : ℚ) (a : Account)
    (h : s.accounts k = some a) :
    record_transaction s k amt ty d now =
      { s with txnCounter := s.txnCounter + 1
               ledger := s.ledger ++
                 [Txn.mk (padId "TXN" (s.txnCounter + 1)) k now
                   (quantize_amount |amt|) ty d (quantize_amount a.balance)
                   a.currency] } := by
  unfold record_transaction
  rw [h]

theorem txnsFor_append (k : String) (l : List Txn) (t : Txn) :
    txnsFor k (l ++ [t]) = txnsFor k l ++ (if t.account_id == k then [t] else []) := by
  unfold txnsFor
  rw [List.filter_append]
  congr 1
  cases h : (t.account_id == k) <;> simp [List.filter, h]

theorem replayFold_append (b : ℚ) (l : List Txn) (t : Txn) :
    replayFold b (l ++ [t]) = replayFold b l + signedAmt t := by
  unfold replayFold
  rw [List.foldl_append]
  rfl

theorem replayFold_cons (b : ℚ) (x : Txn) (xs : List Txn) :
    replayFold b (x :: xs) = replayFold (b + signedAmt x) xs := rfl

theorem replayOkB_append (b : ℚ) (l : List Txn) (t : Txn)
    (h : replayOkB b l = true)
    (h2 : replayFold b l + signedAmt t = t.balance_after) :
    replayOkB b (l ++ [t]) = true := by
  induction l generalizing b with
  | nil =>
    unfold replayFold at h2
    simp only [List.foldl_nil] at h2
    simp [replayOkB, h2]
  | cons x xs ih =>
    rw [List.cons_append]
    unfold replayOkB at h ⊢
    rw [Bool.and_eq_true] at h ⊢
    exact ⟨h.1, ih _ h.2 (by rw [← replayFold_cons]; exact h2)⟩

theorem replayInv_of_eq {s s' : BankState} (ha : s'.accounts = s.accounts)
    (hl : s'.ledger = s.ledger) (h : ReplayInv s) : ReplayInv s' := by
  intro k a0 h0
  obtain ⟨a, h1, h2, h3, h4⟩ := h k a0 h0
  exact ⟨a, ha ▸ h1, h2, hl ▸ h3, hl ▸ h4⟩

/-- The shared shape of both writers: set the mutated account, then append
the matching ledger record.  The side conditions are only needed for
accounts tracked by the invariant. -/
theorem replayInv_mutate (s : BankState) (k : String) (a a' : Account)
    (amt : ℚ) (ty : TxnType) (d : String) (now : ℚ)
    (hk : s.accounts k = some a)
    (hInv : ReplayInv s)
    (hcond : (∃ a0, initState.accounts k = some a0) →
      IsCent a'.balance ∧
      (match ty with
        | TxnType.credit => quantize_amount |amt|
        | TxnType.debit => -(quantize_amount |amt|)) = a'.balance - a.balance) :
    ReplayInv (record_transaction (setAccount s k a') k amt ty d now) := by
  intro j a0 h0
  rw [record_transaction_eq _ _ _ _ _ _ a' (setAccount_lookup_eq s k a')]
  by_cases hjk : j = k
  · subst hjk
    obtain ⟨hcent, hsig⟩ := hcond ⟨a0, h0⟩
    obtain ⟨ai, h1, _, h3, h4⟩ := hInv j a0 h0
    have hai : ai = a := by
      rw [hk] at h1
      injection h1 with h1'
      exact h1'.symm
    subst hai
    refine ⟨a', setAccount_lookup_eq s j a', hcent, ?_, ?_⟩
    · show replayOkB a0.balance
        (txnsFor j ((setAccount s j a').ledger ++ [_])) = true
      rw [setAccount_ledger, txnsFor_append]
      simp only [beq_self_eq_true, if_true]
      apply replayOkB_append _ _ _ h3
      rw [h4]
      show ai.balance + signedAmt (Txn.mk _ _ _ _ ty _ _ _) = quantize_amount a'.balance
      rw [quantize_amount_cent hcent]
      unfold signedAmt
      cases ty <;> dsimp only at hsig ⊢ <;> linarith [hsig]
    · show replayFold a0.balance
        (txnsFor j ((setAccount s j a').ledger ++ [_])) = a'.balance
      rw [setAccount_ledger, txnsFor_append]
      simp only [beq_self_eq_true, if_true]
      rw [replayFold_append, h4]
      show ai.balance + signedAmt (Txn.mk _ _ _ _ ty _ _ _) = a'.balance
      unfold signedAmt
      cases ty <;> dsimp only at hsig ⊢ <;> linarith [hsig]
  · obtain ⟨ai, h1, h2, h3, h4⟩ := hInv j a0 h0
    have hne : (k == j) = false := by
      rw [beq_eq_false_iff_ne]
      exact fun hc => hjk hc.symm
    refine ⟨ai, ?_, h2, ?_, ?_⟩
    · show (setAccount s k a').accounts j = some ai
      rw [setAccount_lookup_ne s k a' j hjk]
      exact h1
    · show replayOkB a0.balance
        (txnsFor j ((setAccount s k a').ledger ++ [_])) = true
      rw [setAccount_ledger, txnsFor_append]
      simp only [hne, Bool.false_eq_true, if_false, List.append_nil]
      exact h3
    · show replayFold a0.balance
        (txnsFor j ((setAccount s k a').ledger ++ [_])) = ai.balance
      rw [setAccount_ledger, txnsFor_append]
      simp only [hne, Bool.false_eq_true, if_false, List.append_nil]
      exact h4

theorem replayInv_sim (s : BankState) (k : String) (raw : ℚ) (d : String)
    (now : ℚ) (hInv : ReplayInv s)
    (hnc : noClampEvent s (Event.sim k raw d now) = true) :
    ReplayInv (simIteration s k raw d now) := by
  unfold simIteration
  cases hk : s.accounts k with
  | none => exact hInv
  | some a =>
    have hb : -5000 ≤ quantize2HE (a.balance + quantize2HE raw) := by
      unfold noClampEvent at hnc
      dsimp only at hnc
      rw [hk] at hnc
      exact of_decide_eq_true hnc
    dsimp only
    rw [if_neg (not_lt.mpr hb)]
    apply replayInv_of_eq (check_alerts_accounts _ _ _) (check_alerts_ledger _ _ _)
    apply replayInv_mutate s k a _ _ _ _ _ hk hInv
    rintro ⟨a0, h0⟩
    obtain ⟨ai, h1, hcent_ai, _, _⟩ := hInv k a0 h0
    have hai : ai = a := by
      rw [hk] at h1
      injection h1 with h'
      exact h'.symm
    have hcent_a : IsCent a.balance := hai ▸ hcent_ai
    have hchange : IsCent (quantize2HE raw) := isCent_quantize2HE raw
    have hb1 : quantize2HE (a.balance + quantize2HE raw)
        = a.balance + quantize2HE raw := quantize2HE_cent (hcent_a.add hchange)
    constructor
    · dsimp only
      rw [hb1]
      exact hcent_a.add hchange
    · by_cases hpos : 0 < quantize2HE raw
      · rw [if_pos hpos]
        dsimp only
        rw [quantize_amount_cent hchange.abs, abs_of_pos hpos, hb1]
        ring
      · rw [if_neg hpos]
        dsimp only
        rw [quantize_amount_cent hchange.abs,
          abs_of_nonpos (not_lt.mp hpos), hb1]
        ring

theorem replayInv_procOne (now : ℚ) (s : BankState) (p : Payment)
    (hInv : ReplayInv s) (hc : IsCent p.amount) (hnn : 0 ≤ p.amount) :
    ReplayInv (procOne now s p).1 := by
  rcases procOne_fst now s p with heq | ⟨a, hk, heq⟩ <;> rw [heq]
  · exact hInv
  · apply replayInv_of_eq (check_alerts_accounts _ _ _) (check_alerts_ledger _ _ _)
    apply replayInv_mutate s p.from_account a _ _ _ _ _ hk hInv
    rintro ⟨a0, h0⟩
    obtain ⟨ai, h1, hcent_ai, _, _⟩ := hInv _ a0 h0
    have hai : ai = a := by
      rw [hk] at h1
      injection h1 with h'
      exact h'.symm
    constructor
    · exact (hai ▸ hcent_ai).sub hc
    · dsimp only
      rw [abs_neg, abs_of_nonneg hnn, quantize_amount_cent hc]
      ring

theorem payOk_procList (now : ℚ) (s : BankState) (ps : List Payment)
    (hps : ∀ p ∈ ps, IsCent p.amount ∧ 0 ≤ p.amount) :
    ∀ p' ∈ (procList now s ps).2, IsCent p'.amount ∧ 0 ≤ p'.amount := by
  induction ps generalizing s with
  | nil =>
    intro p' hp'
    simp [procList] at hp'
  | cons p rest ih =>
    intro p' hp'
    unfold procList at hp'
    dsimp only at hp'
    rcases List.mem_cons.mp hp' with hhead | htail
    · subst hhead
      rw [procOne_amount]
      exact hps p (List.mem_cons_self p rest)
    · exact ih _ (fun q hq => hps q (List.mem_cons_of_mem _ hq)) p' htail

theorem replayInv_procList (now : ℚ) (s : BankState) (ps : List Payment)
    (hInv : ReplayInv s) (hps : ∀ p ∈ ps, IsCent p.amount ∧ 0 ≤ p.amount) :
    ReplayInv (procList now s ps).1 := by
  induction ps generalizing s with
  | nil => exact hInv
  | cons p rest ih =>
    exact ih _
      (replayInv_procOne now s p hInv
        (hps p (List.mem_cons_self p rest)).1
        (hps p (List.mem_cons_self p rest)).2)
      (fun q hq => hps q (List.mem_cons_of_mem _ hq))

theorem create_payment_mem_amount (s : BankState) (f r : String) (aq : ℚ)
    (d : String) (t : ℚ) (p : Payment)
    (hp : p ∈ (create_payment s f r aq d t).payments) :
    p ∈ s.payments ∨ (p.amount = quantize_amount aq ∧ 0 < aq) := by
  unfold create_payment at hp
  cases hk : s.accounts f <;> rw [hk] at hp
  · exact Or.inl hp
  · dsimp only at hp
    split_ifs at hp with hle
    · exact Or.inl hp
    · rcases List.mem_append.mp hp with hold | hnew
      · exact Or.inl hold
      · rw [List.mem_singleton] at hnew
        subst hnew
        exact Or.inr ⟨rfl, not_le.mp hle⟩

theorem inv_step (s : BankState) (e : Event) (h1 : ReplayInv s)
    (h2 : PayAmountsOk s) (hnc : noClampEvent s e = true) :
    ReplayInv (step s e) ∧ PayAmountsOk (step s e) := by
  cases e with
  | sim k c d t =>
    refine ⟨replayInv_sim s k c d t h1 hnc, ?_⟩
    intro p hp
    rw [show step s (Event.sim k c d t) = simIteration s k c d t from rfl,
      simIteration_payments] at hp
    exact h2 p hp
  | payTick t =>
    refine ⟨?_, ?_⟩
    · exact replayInv_of_eq rfl rfl (replayInv_procList t s s.payments h1 h2)
    · intro p hp
      exact payOk_procList t s s.payments h2 p hp
  | submit f r aq d t =>
    refine ⟨replayInv_of_eq (create_payment_accounts s f r aq d t)
      (create_payment_ledger s f r aq d t) h1, ?_⟩
    intro p hp
    rcases create_payment_mem_amount s f r aq d t p hp with hold | ⟨hamt, hpos⟩
    · exact h2 p hold
    · rw [hamt]
      exact ⟨isCent_quantize_amount aq, quantize_amount_nonneg (le_of_lt hpos)⟩

theorem inv_run (es : List Event) (s : BankState) (h1 : ReplayInv s)
    (h2 : PayAmountsOk s) (hnc : noClampRun s es = true) :
    ReplayInv (run s es) := by
  induction es generalizing s with
  | nil => exact h1
  | cons e rest ih =>
    unfold noClampRun at hnc
    rw [Bool.and_eq_true] at hnc
    exact ih _ (inv_step s e h1 h2 hnc.1).1 (inv_step s e h1 h2 hnc.1).2 hnc.2

theorem replayInv_init : ReplayInv initState := by
  intro k a0 h0
  refine ⟨a0, h0, ?_, rfl, rfl⟩
  have h0' : initAccounts k = some a0 := h0
  unfold initAccounts at h0'
  split_ifs at h0'
  · injection h0' with h'
    subst h'
    exact ⟨1653245, by norm_num⟩
  · injection h0' with h'
    subst h'
    exact ⟨12043210, by norm_num⟩
  · injection h0' with h'
    subst h'
    exact ⟨875067, by norm_num⟩

theorem payOk_init : PayAmountsOk initState := by
  intro p hp
  simp [initState] at hp

/-- C2 as amended: for every run in which no `balance_simulator`
iteration hits the `-5000.00` floor clamp, replaying any seeded account's
sub-log from its initial balance — adding credit magnitudes, subtracting
debit magnitudes — reproduces every stored `balance_after` in order.  (In
a clamped iteration the recorded magnitude is the *unclamped* change while
`balance_after` is the clamped `-5000.00`, so replay diverges there — the
counterexample.) -/
theorem c2_replay_amended (es : List Event)
    (hnc : noClampRun initState es = true)
    (k : String) (a0 : Account) (h0 : initState.accounts k = some a0) :
    replayOkB a0.balance (txnsFor k (run initState es).ledger) = true := by
  obtain ⟨a, _, _, h3, _⟩ :=
    inv_run es initState replayInv_init payOk_init hnc k a0 h0
  exact h3

/-- Witness for C2 (amended): one clamp-free simulator iteration on
`op_aud`; the replayed log passes the check. -/
theorem c2_replay_amended_witness :
    replayOkB (Account.mk "op_aud" "Operating Account" "AUD" (1653245/100)
        none).balance
      (txnsFor "op_aud"
        (run initState
          [Event.sim "op_aud" 100 "Customer payment received" 1]).ledger)
      = true :=
  c2_replay_amended [Event.sim "op_aud" 100 "Customer payment received" 1]
    (by norm_num [noClampRun, noClampEvent, step, initState, initAccounts,
      quantize2HE, halfEvenInt])
    "op_aud" (Account.mk "op_aud" "Operating Account" "AUD" (1653245/100) none)
    (by norm_num [initState, initAccounts])
